import Mathlib

/-!
Verification of the two puzzle solvers of the repository:
* `src/day_14/part_2/src/main.rs` — cyclic rock simulator (tilt / spin cycle / load),
* `src/day_16/part_1/src/main.rs` — beam tracer over a mirror grid.

Rust `Vec` values are modelled as Lean `List`s, `HashMap`/`HashSet` as
association lists / duplicate-free lists, `usize` as `Nat` (subtraction sites
that could underflow are analysed explicitly through a checked variant), and
panics (`assert!`, `unreachable!`, indexing faults) as `Option`/`none` in the
checked variants.
-/

/-- `PositionState` of `day_14/part_2`: one cell of the rock field. -/
inductive PositionState where
  | RoundRock
  | CubeRock
  | Empty
deriving DecidableEq, Repr

/-- The body of the `for` loop of `slide_rocks` (`day_14/part_2/src/main.rs`,
lines 107–128), as a recursion on the loop counter: the call
`slideLoop positions last k` runs the iterations that process indices
`k-1, k-2, …, 0`, where `last` is `last_available_space`.  Cell reads use
`getD` with an arbitrary default; the loop only ever reads in bounds. -/
def slideLoop : List PositionState → Option Nat → Nat → List PositionState
  | positions, _, 0 => positions
  | positions, last, k + 1 =>
    match last, positions.getD k PositionState.Empty with
    | some s, PositionState.RoundRock =>
        slideLoop ((positions.set s PositionState.RoundRock).set k PositionState.Empty)
          (some (s - 1)) k
    | some _, PositionState.CubeRock => slideLoop positions none k
    | some s, PositionState.Empty => slideLoop positions (some s) k
    | none, PositionState.Empty => slideLoop positions (some k) k
    | none, _ => slideLoop positions none k

/-- `slide_rocks` of `day_14/part_2`: one tilt pass over a single column,
scanning from the high-index end toward index 0
(the `assert!(!positions.is_empty())` panic is analysed by
`slideRocksChecked` below; on `[]` this total model returns `[]`). -/
def slide_rocks (positions : List PositionState) : List PositionState :=
  slideLoop positions none positions.length

/-- Checked model of `slide_rocks`: `none` models a panic — the
`assert!` on an empty column, an out-of-bounds index access, or a `usize`
underflow in `last_space_index - 1`. -/
def slideLoopChecked : List PositionState → Option Nat → Nat → Option (List PositionState)
  | positions, _, 0 => some positions
  | positions, last, k + 1 =>
    if k < positions.length then
      match last, positions.getD k PositionState.Empty with
      | some s, PositionState.RoundRock =>
          if s < positions.length ∧ 1 ≤ s then
            slideLoopChecked
              ((positions.set s PositionState.RoundRock).set k PositionState.Empty)
              (some (s - 1)) k
          else none
      | some _, PositionState.CubeRock => slideLoopChecked positions none k
      | some s, PositionState.Empty => slideLoopChecked positions (some s) k
      | none, PositionState.Empty => slideLoopChecked positions (some k) k
      | none, _ => slideLoopChecked positions none k
    else none

/-- `slide_rocks` with every panic site made explicit. -/
def slideRocksChecked (positions : List PositionState) : Option (List PositionState) :=
  if positions.isEmpty then none
  else slideLoopChecked positions none positions.length

/-- `calculate_load` of `day_14/part_2` (lines 133–144): fold over the
enumerated column, adding `index + 1` for every `RoundRock`. -/
def calculate_load (positions : List PositionState) : Nat :=
  positions.enum.foldl
    (fun acc x => if x.2 = PositionState.RoundRock then acc + x.1 + 1 else acc) 0

/-- `rotate_2d_vector_clockwise` of `day_14/part_2` (lines 47–57):
`result[j][n - i - 1] = vector[i][j]`.  (`vector[0]` on an empty vector would
panic in Rust; here `headD` makes the degenerate case return `[]`, which is
irrelevant to the claims, all of which apply the same function on both
sides.) -/
def rotate_2d_vector_clockwise (vector : List (List PositionState)) :
    List (List PositionState) :=
  (List.range (vector.headD []).length).map (fun j =>
    (List.range vector.length).map (fun k =>
      (vector.getD (vector.length - 1 - k) []).getD j PositionState.Empty))

/-- One `map slide_rocks` + rotate pass (the body of `for _ in 0..4`,
lines 25–28 / 34–37 of `day_14/part_2`). -/
def spin_pass (field : List (List PositionState)) : List (List PositionState) :=
  rotate_2d_vector_clockwise (field.map slide_rocks)

/-- One full spin cycle: four tilt-and-rotate passes. -/
def spin_cycle (field : List (List PositionState)) : List (List PositionState) :=
  spin_pass (spin_pass (spin_pass (spin_pass field)))

/-- `n` full spin cycles in sequence. -/
def runCycles : List (List PositionState) → Nat → List (List PositionState)
  | f, 0 => f
  | f, n + 1 => runCycles (spin_cycle f) n

/-- `seen.get(&parsed_input)` of `day_14/part_2` line 19: the `HashMap` from
field snapshots to first-seen cycle index, modelled as an association list
(keys are only ever inserted when absent, so lookup order is immaterial). -/
def lookupField (f : List (List PositionState)) :
    List (List (List PositionState) × Nat) → Option Nat
  | [] => none
  | (g, i) :: rest => if g = f then some i else lookupField f rest

/-- The cycle-detection loop of `solve_part` (`day_14/part_2`, lines 14–29):
returns the field together with `cycle_start` and `cycle_length` (both `0`
when the loop runs out of iterations without finding a repeat, matching the
initialisation `let mut cycle_length = 0; let mut cycle_start = 0;`). -/
def detectLoop :
    List (List PositionState) → List (List (List PositionState) × Nat) → Nat → Nat →
      List (List PositionState) × Nat × Nat
  | field, _, _, 0 => (field, 0, 0)
  | field, seen, i, fuel + 1 =>
    match lookupField field seen with
    | some prev => (field, prev, i - prev)
    | none => detectLoop (spin_cycle field) ((field, i) :: seen) (i + 1) fuel

/-- The post-parse part of `solve_part` of `day_14/part_2` (lines 14–44):
cycle detection, fast-forward by `(cycles - cycle_start) % cycle_length`
when a cycle was found, then the summed per-column load. -/
def solveField (field : List (List PositionState)) (cycles : Nat) : Nat :=
  let r := detectLoop field [] 0 cycles
  let f2 := if 0 < r.2.2 then runCycles r.1 ((cycles - r.2.1) % r.2.2) else r.1
  (f2.map calculate_load).sum

/-- Reference function: run all the spin cycles naively (no cycle detection,
no fast-forward) and sum the per-column loads. -/
def naive_solve (field : List (List PositionState)) (cycles : Nat) : Nat :=
  ((runCycles field cycles).map calculate_load).sum

/-- Rust's `char::is_whitespace`: the Unicode `White_Space` property,
listed code point by code point — U+0009–U+000D, U+0020, U+0085, U+00A0,
U+1680, U+2000–U+200A, U+2028, U+2029, U+202F, U+205F, U+3000. -/
def char_is_whitespace (c : Char) : Bool :=
  decide ((0x9 ≤ c.toNat ∧ c.toNat ≤ 0xD) ∨ c.toNat = 0x20 ∨ c.toNat = 0x85 ∨
    c.toNat = 0xA0 ∨ c.toNat = 0x1680 ∨
    (0x2000 ≤ c.toNat ∧ c.toNat ≤ 0x200A) ∨ c.toNat = 0x2028 ∨
    c.toNat = 0x2029 ∨ c.toNat = 0x202F ∨ c.toNat = 0x205F ∨ c.toNat = 0x3000)

/-- `input.find(char::is_whitespace)` of `day_14/part_2` line 61: byte index
of the first Unicode-whitespace character (`utf8Size` accounts for Rust's
`str::find` returning a byte offset). -/
def find_whitespace : List Char → Option Nat
  | [] => none
  | c :: cs =>
    if char_is_whitespace c then some 0
    else (find_whitespace cs).map (fun n => n + c.utf8Size)

/-- The `match` of `day_14/part_2` lines 76–81.  The `_ => unreachable!()`
branch can only see `'O' | '.' | '#'` because the input was filtered, so the
catch-all is collapsed into the `'#'` case. -/
def rock_of_char (c : Char) : PositionState :=
  if c = 'O' then PositionState.RoundRock
  else if c = '.' then PositionState.Empty
  else PositionState.CubeRock

/-- `parse` of `day_14/part_2` (lines 59–89): `none` models the
`context("Input should be seperated with line breaks")` error when no
whitespace character exists; otherwise the column-major, per-column-reversed
field built from the characters `'O' | '.' | '#'` (all others filtered out). -/
def parse (input : List Char) : Option (List (List PositionState)) :=
  match find_whitespace input with
  | none => none
  | some row_len =>
    some ((List.range row_len).map (fun i =>
      (((input.filter (fun c => c == 'O' || c == '.' || c == '#')).enum.filter
          (fun p => p.1 % row_len == i)).map (fun p => rock_of_char p.2)).reverse))

/-- `solve_part` of `day_14/part_2` (lines 12–45); the `expect` on a parse
failure is modelled by propagating `none`. -/
def solve_part (input : List Char) (cycles : Nat) : Option Nat :=
  (parse input).map (fun f => solveField f cycles)

/-! ## Specification-side definitions for the tilt claims

`settle` renders the sentence "every round rock slides as far as geometry
allows, with cube rocks acting as barriers": within each maximal cube-free
segment all `Empty` cells are emitted first (low indices) and all
`RoundRock`s last (high indices, i.e. rocks pile up just below the next
barrier or the high end), and every `CubeRock` stays where it is.
`settleLow` is the same statement with the direction the claim C2 asserts:
rocks pushed toward index 0 (rocks first, empties last in each segment). -/

/-- Segment-wise accumulator: `e`/`r` count the `Empty`/`RoundRock` cells of
the current cube-free segment seen so far; on a barrier (or the end) the
segment is emitted as empties-then-rocks. -/
def settleGo (e r : Nat) : List PositionState → List PositionState
  | [] =>
    List.replicate e PositionState.Empty ++ List.replicate r PositionState.RoundRock
  | PositionState.Empty :: rest => settleGo (e + 1) r rest
  | PositionState.RoundRock :: rest => settleGo e (r + 1) rest
  | PositionState.CubeRock :: rest =>
    List.replicate e PositionState.Empty ++ List.replicate r PositionState.RoundRock ++
      PositionState.CubeRock :: settleGo 0 0 rest

/-- Rocks slid as far as possible toward the high-index end, cubes fixed. -/
def settle (l : List PositionState) : List PositionState := settleGo 0 0 l

/-- Accumulator for `settleLow`: each segment emitted rocks-then-empties. -/
def settleLowGo (e r : Nat) : List PositionState → List PositionState
  | [] =>
    List.replicate r PositionState.RoundRock ++ List.replicate e PositionState.Empty
  | PositionState.Empty :: rest => settleLowGo (e + 1) r rest
  | PositionState.RoundRock :: rest => settleLowGo e (r + 1) rest
  | PositionState.CubeRock :: rest =>
    List.replicate r PositionState.RoundRock ++ List.replicate e PositionState.Empty ++
      PositionState.CubeRock :: settleLowGo 0 0 rest

/-- Rocks slid as far as possible toward index 0 (the direction claim C2
states), cubes fixed. -/
def settleLow (l : List PositionState) : List PositionState := settleLowGo 0 0 l

/-- Number of `Empty` cells in the leading cube-free segment. -/
def eCount : List PositionState → Nat
  | [] => 0
  | PositionState.Empty :: rest => eCount rest + 1
  | PositionState.RoundRock :: rest => eCount rest
  | PositionState.CubeRock :: _ => 0

/-- Number of occurrences of a given cell state. -/
def countState (x : PositionState) : List PositionState → Nat
  | [] => 0
  | y :: s => (if y = x then 1 else 0) + countState x s

/-- Round rocks in the leading cube-free segment. -/
def rCount : List PositionState → Nat
  | [] => 0
  | PositionState.Empty :: rest => rCount rest
  | PositionState.RoundRock :: rest => rCount rest + 1
  | PositionState.CubeRock :: _ => 0

/-- The settled output beyond the first barrier (empty when the column has
no cube rock). -/
def settleRest : List PositionState → List PositionState
  | [] => []
  | PositionState.CubeRock :: rest => PositionState.CubeRock :: settleGo 0 0 rest
  | PositionState.Empty :: rest => settleRest rest
  | PositionState.RoundRock :: rest => settleRest rest

/-! ## Day 16 — beam tracer -/

/-- `Tile` of `day_16/part_1`. -/
inductive Tile where
  | Empty
  | MirrorForward
  | MirrorBackward
  | SplitterHorizontal
  | SplitterVertical
deriving DecidableEq, Repr

/-- `Origin` of `day_16/part_1`: the compass direction a beam travelled
from (so `West` continues eastward, i.e. toward larger x). -/
inductive Origin where
  | North
  | East
  | South
  | West
deriving DecidableEq, Repr

/-- `Tile::try_from` of `day_16/part_1` (lines 29–42).  The `anyhow!` error
value is its message string, which the source fixes to
`"Failed to parse Tile from char"` for every invalid character. -/
def Tile.try_from (value : Char) : Except String Tile :=
  if value = '.' then Except.ok Tile.Empty
  else if value = '/' then Except.ok Tile.MirrorForward
  else if value = '\\' then Except.ok Tile.MirrorBackward
  else if value = '-' then Except.ok Tile.SplitterHorizontal
  else if value = '|' then Except.ok Tile.SplitterVertical
  else Except.error "Failed to parse Tile from char"

/-- `Grid` of `day_16/part_1`: the `HashMap<(usize, usize), Tile>` is
modelled as a function into `Option Tile`; `extents = (max_x, max_y)`,
inclusive. -/
structure Grid where
  grid : Nat × Nat → Option Tile
  extents : Nat × Nat

/-- `Grid::is_in_bounds` (lines 79–114): move one step in the direction the
beam keeps travelling (`North` entered from the north, so y grows; the two
`checked_sub` calls guard the decreasing moves), `none` when the step leaves
`[0, extents.0] × [0, extents.1]`. -/
def Grid.is_in_bounds (g : Grid) (previous : Nat × Nat) (origin : Origin) :
    Option ((Nat × Nat) × Origin) :=
  match origin with
  | Origin.North =>
    if previous.2 + 1 ≤ g.extents.2 then some ((previous.1, previous.2 + 1), origin)
    else none
  | Origin.West =>
    if previous.1 + 1 ≤ g.extents.1 then some ((previous.1 + 1, previous.2), origin)
    else none
  | Origin.South =>
    match previous.2 with
    | 0 => none
    | Nat.succ y => some ((previous.1, y), origin)
  | Origin.East =>
    match previous.1 with
    | 0 => none
    | Nat.succ x => some ((x, previous.2), origin)

/-- `Grid::next_steps` (lines 115–157).  The outer `none` models the
`unreachable!()` panic on a coordinate the `HashMap` does not contain. -/
def Grid.next_steps (g : Grid) (current : Nat × Nat) (origin : Origin) :
    Option (Option ((Nat × Nat) × Origin) × Option ((Nat × Nat) × Origin)) :=
  match g.grid current with
  | none => none
  | some tile =>
    some (match tile with
      | Tile.Empty => (g.is_in_bounds current origin, none)
      | Tile.MirrorForward =>
        match origin with
        | Origin.North => (g.is_in_bounds current Origin.East, none)
        | Origin.East => (g.is_in_bounds current Origin.North, none)
        | Origin.South => (g.is_in_bounds current Origin.West, none)
        | Origin.West => (g.is_in_bounds current Origin.South, none)
      | Tile.MirrorBackward =>
        match origin with
        | Origin.North => (g.is_in_bounds current Origin.West, none)
        | Origin.East => (g.is_in_bounds current Origin.South, none)
        | Origin.South => (g.is_in_bounds current Origin.East, none)
        | Origin.West => (g.is_in_bounds current Origin.North, none)
      | Tile.SplitterHorizontal =>
        match origin with
        | Origin.North =>
          (g.is_in_bounds current Origin.East, g.is_in_bounds current Origin.West)
        | Origin.South =>
          (g.is_in_bounds current Origin.East, g.is_in_bounds current Origin.West)
        | Origin.East => (g.is_in_bounds current origin, none)
        | Origin.West => (g.is_in_bounds current origin, none)
      | Tile.SplitterVertical =>
        match origin with
        | Origin.East =>
          (g.is_in_bounds current Origin.North, g.is_in_bounds current Origin.South)
        | Origin.West =>
          (g.is_in_bounds current Origin.North, g.is_in_bounds current Origin.South)
        | Origin.North => (g.is_in_bounds current origin, none)
        | Origin.South => (g.is_in_bounds current origin, none))

/-- `HashSet::insert` semantics on a duplicate-free list. -/
def insertUnique (x : Nat × Nat) (s : List (Nat × Nat)) : List (Nat × Nat) :=
  if x ∈ s then s else x :: s

/-- The per-candidate block of `get_energized_tiles` (lines 57–68): push a
surviving move only if it is not in `seen_moves`, inserting it into
`seen_moves` at push time. -/
def pushState (m : Option ((Nat × Nat) × Origin))
    (moves seen : List ((Nat × Nat) × Origin)) :
    List ((Nat × Nat) × Origin) × List ((Nat × Nat) × Origin) :=
  match m with
  | none => (moves, seen)
  | some st => if st ∈ seen then (moves, seen) else (st :: moves, st :: seen)

/-- The `while let Some(..) = moves.pop()` loop of `get_energized_tiles`
(lines 54–69), with an explicit fuel: `none` is returned when the fuel runs
out (never, for sufficient fuel — claim C5) or when `next_steps` panics. -/
def beamLoop (g : Grid) :
    Nat → List ((Nat × Nat) × Origin) → List ((Nat × Nat) × Origin) →
      List (Nat × Nat) → Option (List (Nat × Nat))
  | 0, _, _, _ => none
  | _ + 1, [], _, energized => some energized
  | fuel + 1, (current, origin) :: rest, seen, energized =>
    match g.next_steps current origin with
    | none => none
    | some (m1, m2) =>
      let p1 := pushState m1 rest seen
      let p2 := pushState m2 p1.1 p1.2
      beamLoop g fuel p2.1 p2.2 (insertUnique current energized)

/-- `get_energized_tiles` of `day_16/part_1` (lines 44–71): start at
`((0, 0), West)`, which is pushed and recorded as seen before the loop. -/
def get_energized_tiles (g : Grid) (fuel : Nat) : Option (List (Nat × Nat)) :=
  beamLoop g fuel [((0, 0), Origin.West)] [((0, 0), Origin.West)] []

/-! Specification-side definitions for claim C4 (the §4.2 redirection
table), written from the spec's words rather than from the source. -/

/-- §4.2 redirection table: successor directions for a tile and an incoming
direction.  `Empty` continues; `/` swaps North↔East and South↔West; `\`
swaps North↔West and South↔East; `-` splits North/South into East and West
and passes East/West; `|` splits East/West into North and South and passes
North/South. -/
def specSuccessors : Tile → Origin → List Origin
  | Tile.Empty, o => [o]
  | Tile.MirrorForward, Origin.North => [Origin.East]
  | Tile.MirrorForward, Origin.East => [Origin.North]
  | Tile.MirrorForward, Origin.South => [Origin.West]
  | Tile.MirrorForward, Origin.West => [Origin.South]
  | Tile.MirrorBackward, Origin.North => [Origin.West]
  | Tile.MirrorBackward, Origin.West => [Origin.North]
  | Tile.MirrorBackward, Origin.South => [Origin.East]
  | Tile.MirrorBackward, Origin.East => [Origin.South]
  | Tile.SplitterHorizontal, Origin.North => [Origin.East, Origin.West]
  | Tile.SplitterHorizontal, Origin.South => [Origin.East, Origin.West]
  | Tile.SplitterHorizontal, o => [o]
  | Tile.SplitterVertical, Origin.East => [Origin.North, Origin.South]
  | Tile.SplitterVertical, Origin.West => [Origin.North, Origin.South]
  | Tile.SplitterVertical, o => [o]

/-- One step from `p` in direction `d` (under the `Origin` travel
convention), discarded (`none`) when it leaves `[0, extents.0] × [0, extents.1]`. -/
def specMove (extents : Nat × Nat) (p : Nat × Nat) : Origin → Option ((Nat × Nat) × Origin)
  | Origin.North =>
    if p.2 + 1 ≤ extents.2 then some ((p.1, p.2 + 1), Origin.North) else none
  | Origin.West =>
    if p.1 + 1 ≤ extents.1 then some ((p.1 + 1, p.2), Origin.West) else none
  | Origin.South =>
    if p.2 = 0 then none else some ((p.1, p.2 - 1), Origin.South)
  | Origin.East =>
    if p.1 = 0 then none else some ((p.1 - 1, p.2), Origin.East)

/-- The pair of candidate moves the spec's table prescribes (padded with
`none` when the table yields a single successor). -/
def specNext (extents : Nat × Nat) (cur : Nat × Nat) (t : Tile) (o : Origin) :
    Option ((Nat × Nat) × Origin) × Option ((Nat × Nat) × Origin) :=
  match (specSuccessors t o).map (specMove extents cur) with
  | [m] => (m, none)
  | [m1, m2] => (m1, m2)
  | _ => (none, none)

/-- All `(position, direction)` states inside the extents: the claimed
bound on the search's state space. -/
def allStates (g : Grid) : List ((Nat × Nat) × Origin) :=
  (List.range (g.extents.1 + 1)).flatMap (fun x =>
    (List.range (g.extents.2 + 1)).flatMap (fun y =>
      [((x, y), Origin.North), ((x, y), Origin.East),
       ((x, y), Origin.South), ((x, y), Origin.West)]))

/-- A state whose position lies inside the extents. -/
def inBoundsState (g : Grid) (st : (Nat × Nat) × Origin) : Prop :=
  st.1.1 ≤ g.extents.1 ∧ st.1.2 ≤ g.extents.2

/-- A concrete all-`Empty` grid with extents `(3, 3)`, used as a witness
input. -/
def gridW4 : Grid := ⟨fun _ => some Tile.Empty, (3, 3)⟩

/-- A concrete one-cell grid, used as a witness input. -/
def gridW5 : Grid := ⟨fun _ => some Tile.Empty, (0, 0)⟩

/-! ## List helper lemmas -/

lemma getD_append_length {α : Type} (a : List α) (x : α) (t : List α) (d : α) :
    (a ++ x :: t).getD a.length d = x := by
  induction a with
  | nil => rfl
  | cons y ys ih => simpa using ih

lemma set_append_length_add {α : Type} (a b : List α) (i : Nat) (v : α) :
    (a ++ b).set (a.length + i) v = a ++ b.set i v := by
  induction a with
  | nil => simp
  | cons y ys ih => simp [Nat.succ_add, ih]

lemma set_append_length {α : Type} (a : List α) (x : α) (t : List α) (v : α) :
    (a ++ x :: t).set a.length v = a ++ v :: t := by
  simpa using set_append_length_add a (x :: t) 0 v

lemma set_replicate_last {α : Type} (m : Nat) (x v : α) :
    (List.replicate (m + 1) x).set m v = List.replicate m x ++ [v] := by
  induction m with
  | zero => rfl
  | succ n ih =>
    conv_lhs => rw [List.replicate_succ]
    show x :: (List.replicate (n + 1) x).set n v = _
    rw [ih, List.replicate_succ, List.cons_append]

lemma take_succ_getD {α : Type} (l : List α) (k : Nat) (d : α) (h : k < l.length) :
    l.take (k + 1) = l.take k ++ [l.getD k d] := by
  induction l generalizing k with
  | nil => simp at h
  | cons y ys ih =>
    cases k with
    | zero => simp
    | succ k =>
      simp only [List.take_succ_cons, List.getD_cons_succ, List.cons_append,
        List.cons.injEq, true_and]
      exact ih k (by simpa using h)

lemma drop_getD_cons {α : Type} (l : List α) (k : Nat) (d : α) (h : k < l.length) :
    l.drop k = l.getD k d :: l.drop (k + 1) := by
  induction l generalizing k with
  | nil => simp at h
  | cons y ys ih =>
    cases k with
    | zero => simp
    | succ k => simpa using ih k (by simpa using h)

lemma getD_set_ne {α : Type} (l : List α) (i j : Nat) (v d : α) (h : i ≠ j) :
    (l.set j v).getD i d = l.getD i d := by
  induction l generalizing i j with
  | nil => rfl
  | cons y ys ih =>
    cases j with
    | zero =>
      cases i with
      | zero => exact absurd rfl h
      | succ i => simp
    | succ j =>
      cases i with
      | zero => simp
      | succ i => simpa using ih i j (by omega)

lemma getD_set_self {α : Type} (l : List α) (j : Nat) (v d : α) (h : j < l.length) :
    (l.set j v).getD j d = v := by
  induction l generalizing j with
  | nil => simp at h
  | cons y ys ih =>
    cases j with
    | zero => rfl
    | succ j => simpa using ih j (by simpa using h)

lemma getD_replicate_append {α : Type} (m i : Nat) (x : α) (z : List α) (d : α)
    (h : i < m) : (List.replicate m x ++ z).getD i d = x := by
  induction m generalizing i with
  | zero => omega
  | succ n ih =>
    cases i with
    | zero => rfl
    | succ i => simpa [List.replicate_succ] using ih i (by omega)

/-! ## Structure lemmas for `settle` -/

lemma eCount_le_length (l : List PositionState) : eCount l ≤ l.length := by
  induction l with
  | nil => simp [eCount]
  | cons y s ih => cases y <;> simp [eCount] <;> omega

lemma settleGo_empty_acc (l : List PositionState) :
    ∀ e r, settleGo (e + 1) r l = PositionState.Empty :: settleGo e r l := by
  induction l with
  | nil => intro e r; simp [settleGo, List.replicate_succ]
  | cons y s ih =>
    intro e r
    cases y
    · exact ih e (r + 1)
    · simp [settleGo, List.replicate_succ]
    · exact ih (e + 1) r

lemma settleGo_rock_acc (l : List PositionState) :
    ∀ e r, settleGo e (r + 1) l =
      (settleGo (e + 1) r l).set (e + eCount l) PositionState.RoundRock := by
  induction l with
  | nil =>
    intro e r
    simp only [settleGo, eCount, Nat.add_zero]
    rw [List.set_append_left _ _ (by simp), set_replicate_last]
    simp [List.replicate_succ]
  | cons y s ih =>
    intro e r
    cases y with
    | RoundRock =>
      simp only [settleGo, eCount]
      exact ih e (r + 1)
    | CubeRock =>
      simp only [settleGo, eCount, Nat.add_zero]
      rw [List.set_append_left _ _ (by simp; omega),
        List.set_append_left _ _ (by simp), set_replicate_last]
      simp [List.replicate_succ, List.append_assoc]
    | Empty =>
      simp only [settleGo, eCount]
      rw [ih (e + 1) r]
      have : e + 1 + eCount s = e + (eCount s + 1) := by omega
      rw [this]

lemma settle_empty_cons (s : List PositionState) :
    settle (PositionState.Empty :: s) = PositionState.Empty :: settle s := by
  simp only [settle, settleGo]
  exact settleGo_empty_acc s 0 0

lemma settle_cube_cons (s : List PositionState) :
    settle (PositionState.CubeRock :: s) = PositionState.CubeRock :: settle s := by
  simp [settle, settleGo]

lemma settle_rock_cons (s : List PositionState) :
    settle (PositionState.RoundRock :: s) =
      (PositionState.Empty :: settle s).set (eCount s) PositionState.RoundRock := by
  simp only [settle, settleGo]
  rw [settleGo_rock_acc s 0 0, settleGo_empty_acc s 0 0]
  simp

lemma settle_rock_cons_zero (s : List PositionState) (h : eCount s = 0) :
    settle (PositionState.RoundRock :: s) = PositionState.RoundRock :: settle s := by
  rw [settle_rock_cons, h]
  rfl

lemma settle_rock_cons_pos (s : List PositionState) (e : Nat) (h : eCount s = e + 1) :
    settle (PositionState.RoundRock :: s) =
      PositionState.Empty :: (settle s).set e PositionState.RoundRock := by
  rw [settle_rock_cons, h]
  rfl

lemma settle_length (l : List PositionState) : (settle l).length = l.length := by
  induction l with
  | nil => rfl
  | cons y s ih =>
    cases y with
    | RoundRock => rw [settle_rock_cons]; simp [ih]
    | CubeRock => rw [settle_cube_cons]; simp [ih]
    | Empty => rw [settle_empty_cons]; simp [ih]

/-- Loop invariant of `slide_rocks`: after the iterations for indices
`≥ k` have run, the suffix from `k` is settled, and `last_available_space`
is the index of the highest-index `Empty` cell of the leading empty block of
the settled suffix (absent when that block is empty). -/
lemma slideLoop_settle (l : List PositionState) :
    ∀ k, k ≤ l.length →
      slideLoop (l.take k ++ settle (l.drop k))
        (match eCount (l.drop k) with
          | 0 => none
          | e + 1 => some (k + e)) k = settle l := by
  intro k
  induction k with
  | zero => intro _; simp [slideLoop]
  | succ k ih =>
    intro hk
    have hk1 : k < l.length := by omega
    have hlen : (l.take k).length = k := by
      simp [Nat.min_eq_left (Nat.le_of_lt hk1)]
    have htake : l.take (k + 1) = l.take k ++ [l.getD k PositionState.Empty] :=
      take_succ_getD l k PositionState.Empty hk1
    have hdrop : l.drop k = l.getD k PositionState.Empty :: l.drop (k + 1) :=
      drop_getD_cons l k PositionState.Empty hk1
    have ih2 := ih (Nat.le_of_lt hk1)
    cases hx : l.getD k PositionState.Empty with
    | Empty =>
      rw [hx] at htake hdrop
      rw [hdrop, settle_empty_cons] at ih2
      simp only [eCount] at ih2
      rw [htake]
      have happ : (l.take k ++ [PositionState.Empty]) ++ settle (l.drop (k + 1)) =
          l.take k ++ PositionState.Empty :: settle (l.drop (k + 1)) := by simp
      rw [happ]
      have hget := getD_append_length (l.take k) PositionState.Empty
        (settle (l.drop (k + 1))) PositionState.Empty
      rw [hlen] at hget
      cases he : eCount (l.drop (k + 1)) with
      | zero =>
        rw [he] at ih2
        simp only [slideLoop, hget]
        simpa using ih2
      | succ e =>
        rw [he] at ih2
        simp only [slideLoop, hget]
        have harith : k + 1 + e = k + (e + 1) := by omega
        rw [harith]
        exact ih2
    | CubeRock =>
      rw [hx] at htake hdrop
      rw [hdrop, settle_cube_cons] at ih2
      simp only [eCount] at ih2
      rw [htake]
      have happ : (l.take k ++ [PositionState.CubeRock]) ++ settle (l.drop (k + 1)) =
          l.take k ++ PositionState.CubeRock :: settle (l.drop (k + 1)) := by simp
      rw [happ]
      have hget := getD_append_length (l.take k) PositionState.CubeRock
        (settle (l.drop (k + 1))) PositionState.Empty
      rw [hlen] at hget
      cases he : eCount (l.drop (k + 1)) with
      | zero =>
        simp only [slideLoop, hget]
        exact ih2
      | succ e =>
        simp only [slideLoop, hget]
        exact ih2
    | RoundRock =>
      rw [hx] at htake hdrop
      rw [hdrop] at ih2
      simp only [eCount] at ih2
      rw [htake]
      have happ : (l.take k ++ [PositionState.RoundRock]) ++ settle (l.drop (k + 1)) =
          l.take k ++ PositionState.RoundRock :: settle (l.drop (k + 1)) := by simp
      rw [happ]
      have hget := getD_append_length (l.take k) PositionState.RoundRock
        (settle (l.drop (k + 1))) PositionState.Empty
      rw [hlen] at hget
      cases he : eCount (l.drop (k + 1)) with
      | zero =>
        rw [settle_rock_cons_zero _ he, he] at ih2
        simp only [slideLoop, hget]
        exact ih2
      | succ e =>
        rw [settle_rock_cons_pos _ e he, he] at ih2
        simp only [slideLoop, hget]
        have hset1 : (l.take k ++ PositionState.RoundRock :: settle (l.drop (k + 1))).set
            (k + 1 + e) PositionState.RoundRock =
            l.take k ++ PositionState.RoundRock ::
              (settle (l.drop (k + 1))).set e PositionState.RoundRock := by
          have h1 : k + 1 + e = (l.take k).length + (e + 1) := by rw [hlen]; omega
          rw [h1, set_append_length_add]
          rfl
        have hset2 := set_append_length (l.take k) PositionState.RoundRock
          ((settle (l.drop (k + 1))).set e PositionState.RoundRock) PositionState.Empty
        rw [hlen] at hset2
        rw [hset1, hset2]
        have harith : k + 1 + e - 1 = k + e := by omega
        rw [harith]
        exact ih2

/-- `slide_rocks` computes `settle`: every round rock slides as far toward
the high-index end as the cube-rock barriers allow. -/
lemma slide_rocks_eq_settle (l : List PositionState) : slide_rocks l = settle l := by
  have h := slideLoop_settle l l.length (Nat.le_refl _)
  simpa [slide_rocks, eCount, settle, settleGo] using h

/-- For in-range counters whose `last_available_space` is at or above the
next index to process (and in range), the checked loop never hits a panic
site and agrees with the total model. -/
lemma slideLoopChecked_eq :
    ∀ (k : Nat) (positions : List PositionState) (last : Option Nat),
      k ≤ positions.length →
      (∀ s, last = some s → k ≤ s ∧ s < positions.length) →
      slideLoopChecked positions last k = some (slideLoop positions last k) := by
  intro k
  induction k with
  | zero => intro positions last _ _; rfl
  | succ k ih =>
    intro positions last hk hlast
    have hk1 : k < positions.length := by omega
    cases last with
    | none =>
      cases hx : positions.getD k PositionState.Empty with
      | Empty =>
        simp only [slideLoopChecked, slideLoop, hx, hk1, if_true]
        exact ih _ _ (Nat.le_of_lt hk1) (by
          intro s hs
          simp only [Option.some.injEq] at hs
          subst hs
          exact ⟨Nat.le_refl _, hk1⟩)
      | RoundRock =>
        simp only [slideLoopChecked, slideLoop, hx, hk1, if_true]
        exact ih _ _ (Nat.le_of_lt hk1) (by intro s hs; cases hs)
      | CubeRock =>
        simp only [slideLoopChecked, slideLoop, hx, hk1, if_true]
        exact ih _ _ (Nat.le_of_lt hk1) (by intro s hs; cases hs)
    | some s =>
      obtain ⟨hs1, hs2⟩ := hlast s rfl
      cases hx : positions.getD k PositionState.Empty with
      | Empty =>
        simp only [slideLoopChecked, slideLoop, hx, hk1, if_true]
        exact ih _ _ (Nat.le_of_lt hk1) (by
          intro s' hs'
          simp only [Option.some.injEq] at hs'
          subst hs'
          exact ⟨by omega, hs2⟩)
      | RoundRock =>
        have hguard : s < positions.length ∧ 1 ≤ s := ⟨hs2, by omega⟩
        simp only [slideLoopChecked, slideLoop, hx, hk1, if_true, hguard]
        exact ih _ _ (by simp; omega) (by
          intro s' hs'
          simp only [Option.some.injEq] at hs'
          subst hs'
          simp only [List.length_set]
          omega)
      | CubeRock =>
        simp only [slideLoopChecked, slideLoop, hx, hk1, if_true]
        exact ih _ _ (Nat.le_of_lt hk1) (by intro s' hs'; cases hs')

lemma settleGo_shape (l : List PositionState) :
    ∀ e r, settleGo e r l =
      List.replicate (e + eCount l) PositionState.Empty ++
        (List.replicate (r + rCount l) PositionState.RoundRock ++ settleRest l) := by
  induction l with
  | nil => intro e r; simp [settleGo, eCount, rCount, settleRest]
  | cons y s ih =>
    intro e r
    cases y with
    | Empty =>
      simp only [settleGo, eCount, rCount, settleRest]
      rw [ih (e + 1) r]
      have : e + 1 + eCount s = e + (eCount s + 1) := by omega
      rw [this]
    | RoundRock =>
      simp only [settleGo, eCount, rCount, settleRest]
      rw [ih e (r + 1)]
      have : r + 1 + rCount s = r + (rCount s + 1) := by omega
      rw [this]
    | CubeRock =>
      simp only [settleGo, eCount, rCount, settleRest, Nat.add_zero]
      simp [List.append_assoc]

/-- Canonical form of a settled column: the leading empties, the leading
rocks, then everything after the first barrier. -/
lemma settle_shape (l : List PositionState) :
    settle l =
      List.replicate (eCount l) PositionState.Empty ++
        (List.replicate (rCount l) PositionState.RoundRock ++ settleRest l) := by
  simpa using settleGo_shape l 0 0

lemma settle_getD_empty (l : List PositionState) (e : Nat) (he : eCount l = e + 1) :
    (settle l).getD e PositionState.Empty = PositionState.Empty := by
  rw [settle_shape]
  exact getD_replicate_append _ _ _ _ _ (by omega)

lemma eCount_settleRest (l : List PositionState) : eCount (settleRest l) = 0 := by
  induction l with
  | nil => rfl
  | cons y s ih => cases y <;> simp [settleRest, eCount, ih]

lemma settleRest_cases (l : List PositionState) :
    settleRest l = [] ∨
      ∃ rest : List PositionState, rest.length < l.length ∧
        settleRest l = PositionState.CubeRock :: settle rest := by
  induction l with
  | nil => exact Or.inl rfl
  | cons y s ih =>
    cases y with
    | CubeRock => exact Or.inr ⟨s, by simp, rfl⟩
    | Empty =>
      rcases ih with h | ⟨rest, h1, h2⟩
      · exact Or.inl h
      · exact Or.inr ⟨rest, by simp; omega, h2⟩
    | RoundRock =>
      rcases ih with h | ⟨rest, h1, h2⟩
      · exact Or.inl h
      · exact Or.inr ⟨rest, by simp; omega, h2⟩

lemma settle_replicate_empty_append (e : Nat) (x : List PositionState) :
    settle (List.replicate e PositionState.Empty ++ x) =
      List.replicate e PositionState.Empty ++ settle x := by
  induction e with
  | zero => simp
  | succ n ih => simp [List.replicate_succ, settle_empty_cons, ih]

lemma eCount_replicate_rock_append (r : Nat) (x : List PositionState) :
    eCount (List.replicate r PositionState.RoundRock ++ x) = eCount x := by
  induction r with
  | zero => simp
  | succ n ih => simp [List.replicate_succ, eCount, ih]

lemma settle_replicate_rock_append (r : Nat) (x : List PositionState)
    (hx : eCount x = 0) :
    settle (List.replicate r PositionState.RoundRock ++ x) =
      List.replicate r PositionState.RoundRock ++ settle x := by
  induction r with
  | zero => simp
  | succ n ih =>
    rw [List.replicate_succ, List.cons_append,
      settle_rock_cons_zero _ (by rw [eCount_replicate_rock_append]; exact hx), ih,
      List.cons_append]

/-- Settling is idempotent: a settled column settles to itself. -/
theorem settle_settle (l : List PositionState) : settle (settle l) = settle l := by
  conv_lhs => rw [settle_shape l]
  conv_rhs => rw [settle_shape l]
  rw [settle_replicate_empty_append, settle_replicate_rock_append _ _ (eCount_settleRest l)]
  rcases settleRest_cases l with h | ⟨rest, hlt, h⟩
  · rw [h]; rfl
  · rw [h, settle_cube_cons, settle_settle rest]
termination_by l.length

lemma countState_set_rock (l : List PositionState) :
    ∀ i, i < l.length → l.getD i PositionState.Empty = PositionState.Empty →
      countState PositionState.RoundRock (l.set i PositionState.RoundRock) =
          countState PositionState.RoundRock l + 1 ∧
        countState PositionState.Empty l =
          countState PositionState.Empty (l.set i PositionState.RoundRock) + 1 := by
  induction l with
  | nil => intro i hi _; simp at hi
  | cons y s ih =>
    intro i hi hd
    cases i with
    | zero =>
      simp only [List.getD_cons_zero] at hd
      subst hd
      simp [countState]
      omega
    | succ i =>
      simp only [List.getD_cons_succ] at hd
      obtain ⟨h1, h2⟩ := ih i (by simpa using hi) hd
      constructor
      · simp [countState, h1]; omega
      · simp [countState, h2]; omega

lemma settle_countR (l : List PositionState) :
    countState PositionState.RoundRock (settle l) =
      countState PositionState.RoundRock l := by
  induction l with
  | nil => rfl
  | cons y s ih =>
    cases y with
    | Empty => rw [settle_empty_cons]; simp [countState, ih]
    | CubeRock => rw [settle_cube_cons]; simp [countState, ih]
    | RoundRock =>
      rw [settle_rock_cons]
      cases he : eCount s with
      | zero =>
        show countState _ (PositionState.RoundRock :: settle s) = _
        simp [countState, ih]
      | succ e =>
        show countState _
            (PositionState.Empty :: (settle s).set e PositionState.RoundRock) = _
        have hlt : e < (settle s).length := by
          rw [settle_length]
          have := eCount_le_length s
          omega
        obtain ⟨h1, _⟩ :=
          countState_set_rock (settle s) e hlt (settle_getD_empty s e he)
        simp [countState, h1, ih]
        omega

lemma settle_countE (l : List PositionState) :
    countState PositionState.Empty (settle l) =
      countState PositionState.Empty l := by
  induction l with
  | nil => rfl
  | cons y s ih =>
    cases y with
    | Empty => rw [settle_empty_cons]; simp [countState, ih]
    | CubeRock => rw [settle_cube_cons]; simp [countState, ih]
    | RoundRock =>
      rw [settle_rock_cons]
      cases he : eCount s with
      | zero =>
        show countState _ (PositionState.RoundRock :: settle s) = _
        simp [countState, ih]
      | succ e =>
        show countState _
            (PositionState.Empty :: (settle s).set e PositionState.RoundRock) = _
        have hlt : e < (settle s).length := by
          rw [settle_length]
          have := eCount_le_length s
          omega
        obtain ⟨_, h2⟩ :=
          countState_set_rock (settle s) e hlt (settle_getD_empty s e he)
        simp [countState]
        omega

lemma settle_cube_getD (l : List PositionState) :
    ∀ i, ((settle l).getD i PositionState.Empty = PositionState.CubeRock ↔
      l.getD i PositionState.Empty = PositionState.CubeRock) := by
  induction l with
  | nil => intro i; exact Iff.rfl
  | cons y s ih =>
    intro i
    cases y with
    | Empty =>
      rw [settle_empty_cons]
      cases i with
      | zero => exact Iff.rfl
      | succ i => simp only [List.getD_cons_succ]; exact ih i
    | CubeRock =>
      rw [settle_cube_cons]
      cases i with
      | zero => exact Iff.rfl
      | succ i => simp only [List.getD_cons_succ]; exact ih i
    | RoundRock =>
      rw [settle_rock_cons]
      cases he : eCount s with
      | zero =>
        show ((PositionState.RoundRock :: settle s).getD i _ = _ ↔ _)
        cases i with
        | zero => exact Iff.rfl
        | succ i => simp only [List.getD_cons_succ]; exact ih i
      | succ e =>
        show ((PositionState.Empty ::
          (settle s).set e PositionState.RoundRock).getD i _ = _ ↔ _)
        cases i with
        | zero => simp
        | succ i =>
          simp only [List.getD_cons_succ]
          by_cases hie : i = e
          · subst hie
            have hlt : i < (settle s).length := by
              rw [settle_length]
              have := eCount_le_length s
              omega
            rw [getD_set_self _ _ _ _ hlt]
            constructor
            · intro h; exact absurd h (by decide)
            · intro h
              have h2 := (ih i).mpr h
              rw [settle_getD_empty s i he] at h2
              exact absurd h2 (by decide)
          · rw [getD_set_ne _ _ _ _ _ hie]
            exact ih i

lemma runCycles_succ_left (f : List (List PositionState)) (n : Nat) :
    runCycles f (n + 1) = runCycles (spin_cycle f) n := rfl

lemma runCycles_succ_right (f : List (List PositionState)) (n : Nat) :
    runCycles f (n + 1) = spin_cycle (runCycles f n) := by
  induction n generalizing f with
  | zero => rfl
  | succ n ih =>
    rw [runCycles_succ_left f (n + 1), ih (spin_cycle f), ← runCycles_succ_left]

lemma runCycles_add (f : List (List PositionState)) (a b : Nat) :
    runCycles f (a + b) = runCycles (runCycles f a) b := by
  induction b with
  | zero => rfl
  | succ b ih =>
    rw [show a + (b + 1) = (a + b) + 1 from rfl, runCycles_succ_right, ih,
      runCycles_succ_right]

lemma runCycles_period_shift (f : List (List PositionState)) (p d : Nat)
    (hper : runCycles f (p + d) = runCycles f p) :
    ∀ t, runCycles f (p + t + d) = runCycles f (p + t) := by
  intro t
  induction t with
  | zero => simpa using hper
  | succ t ih =>
    have h1 : p + (t + 1) + d = (p + t + d) + 1 := by omega
    rw [h1, runCycles_succ_right, ih, ← runCycles_succ_right]
    rfl

lemma runCycles_period_mod (f : List (List PositionState)) (p d : Nat) (hd : 0 < d)
    (hper : runCycles f (p + d) = runCycles f p) :
    ∀ t, runCycles f (p + t) = runCycles f (p + t % d) := by
  intro t
  induction t using Nat.strong_induction_on with
  | _ t ih =>
    by_cases h : t < d
    · rw [Nat.mod_eq_of_lt h]
    · push_neg at h
      have h2 : p + t = p + (t - d) + d := by omega
      rw [h2, runCycles_period_shift f p d hper (t - d), ih (t - d) (by omega),
        Nat.mod_eq_sub_mod h]

/-- What the cycle-detection loop returns: either the fuel runs out and the
field has simply been spun `fuel` more times (with `cycle_start` and
`cycle_length` still `0`), or a repeat of the cycle-`p` field is found at
some cycle `i0` and the loop stops there with `cycle_start = p` and
`cycle_length = i0 - p`. -/
lemma detectLoop_spec (f0 : List (List PositionState)) :
    ∀ (fuel i : Nat) (seen : List (List (List PositionState) × Nat)),
      (∀ g p, lookupField g seen = some p → p < i ∧ runCycles f0 p = g) →
      detectLoop (runCycles f0 i) seen i fuel = (runCycles f0 (i + fuel), 0, 0) ∨
      ∃ i0 p, i ≤ i0 ∧ i0 < i + fuel ∧ p < i0 ∧
        runCycles f0 p = runCycles f0 i0 ∧
        detectLoop (runCycles f0 i) seen i fuel = (runCycles f0 i0, p, i0 - p) := by
  intro fuel
  induction fuel with
  | zero =>
    intro i seen _
    left
    simp [detectLoop]
  | succ fuel ih =>
    intro i seen hseen
    cases hl : lookupField (runCycles f0 i) seen with
    | some p =>
      obtain ⟨hp1, hp2⟩ := hseen _ _ hl
      right
      exact ⟨i, p, Nat.le_refl _, by omega, hp1, hp2, by simp [detectLoop, hl]⟩
    | none =>
      have hstep : detectLoop (runCycles f0 i) seen i (fuel + 1) =
          detectLoop (runCycles f0 (i + 1)) ((runCycles f0 i, i) :: seen)
            (i + 1) fuel := by
        simp [detectLoop, hl, ← runCycles_succ_right]
      have hinv : ∀ g p, lookupField g ((runCycles f0 i, i) :: seen) = some p →
          p < i + 1 ∧ runCycles f0 p = g := by
        intro g p hgp
        simp only [lookupField] at hgp
        by_cases hgi : runCycles f0 i = g
        · rw [if_pos hgi] at hgp
          simp only [Option.some.injEq] at hgp
          subst hgp
          exact ⟨Nat.lt_succ_self _, hgi⟩
        · rw [if_neg hgi] at hgp
          obtain ⟨h1, h2⟩ := hseen g p hgp
          exact ⟨by omega, h2⟩
      rcases ih (i + 1) _ hinv with h | ⟨i0, p, h1, h2, h3, h4, h5⟩
      · left
        rw [hstep, h]
        have harith : i + 1 + fuel = i + (fuel + 1) := by omega
        rw [harith]
      · right
        exact ⟨i0, p, by omega, by omega, h3, h4, by rw [hstep]; exact h5⟩

/-- The cycle-detecting, fast-forwarding solver returns the same load as
running every cycle naively. -/
lemma solveField_eq_naive (f : List (List PositionState)) (c : Nat) :
    solveField f c = naive_solve f c := by
  have hbase : ∀ g p,
      lookupField g ([] : List (List (List PositionState) × Nat)) = some p →
        p < 0 ∧ runCycles f p = g := by
    intro g p hgp
    simp [lookupField] at hgp
  rcases detectLoop_spec f c 0 [] hbase with h | ⟨i0, p, _, h2, h3, h4, h5⟩
  · unfold solveField
    rw [show detectLoop f [] 0 c = (runCycles f (0 + c), 0, 0) from h]
    simp [naive_solve]
  · have hd : 0 < i0 - p := by omega
    have hper : runCycles f (p + (i0 - p)) = runCycles f p := by
      have hpi : p + (i0 - p) = i0 := by omega
      rw [hpi]
      exact h4.symm
    have hkey :
        runCycles (runCycles f i0) ((c - p) % (i0 - p)) = runCycles f c := by
      have e1 : runCycles (runCycles f i0) ((c - p) % (i0 - p)) =
          runCycles f (i0 + (c - p) % (i0 - p)) := (runCycles_add f i0 _).symm
      have e2 : i0 + (c - p) % (i0 - p) = p + ((i0 - p) + (c - p) % (i0 - p)) := by
        omega
      have e3 : ((i0 - p) + (c - p) % (i0 - p)) % (i0 - p) = (c - p) % (i0 - p) := by
        rw [Nat.add_mod_left]
        exact Nat.mod_eq_of_lt (Nat.mod_lt _ hd)
      have e4 : runCycles f c = runCycles f (p + (c - p)) := by
        have : p + (c - p) = c := by omega
        rw [this]
      rw [e1, e2, runCycles_period_mod f p (i0 - p) hd hper, e3, e4,
        runCycles_period_mod f p (i0 - p) hd hper (c - p)]
    unfold solveField
    rw [show detectLoop f [] 0 c = (runCycles f i0, p, i0 - p) from h5]
    simp only [hd, if_true, hkey, naive_solve]

lemma find_whitespace_eq_none (input : List Char) :
    find_whitespace input = none ↔ ∀ c ∈ input, char_is_whitespace c = false := by
  induction input with
  | nil => simp [find_whitespace]
  | cons c cs ih =>
    simp only [find_whitespace]
    by_cases h : char_is_whitespace c
    · simp [h]
    · simp [h, ih]

/-! ## Day 16 helper lemmas -/

lemma is_in_bounds_eq_specMove (g : Grid) (p : Nat × Nat) (d : Origin) :
    g.is_in_bounds p d = specMove g.extents p d := by
  cases d with
  | North => rfl
  | West => rfl
  | South =>
    cases hp : p.2 with
    | zero => simp [Grid.is_in_bounds, specMove, hp]
    | succ y => simp [Grid.is_in_bounds, specMove, hp]
  | East =>
    cases hp : p.1 with
    | zero => simp [Grid.is_in_bounds, specMove, hp]
    | succ x => simp [Grid.is_in_bounds, specMove, hp]

lemma is_in_bounds_inBoundsState (g : Grid) (c : Nat × Nat) (d : Origin)
    (hx : c.1 ≤ g.extents.1) (hy : c.2 ≤ g.extents.2) :
    ∀ st, g.is_in_bounds c d = some st → inBoundsState g st := by
  intro st h
  cases d with
  | North =>
    simp only [Grid.is_in_bounds] at h
    by_cases hc : c.2 + 1 ≤ g.extents.2
    · rw [if_pos hc] at h
      simp only [Option.some.injEq] at h
      subst h
      exact ⟨hx, hc⟩
    · rw [if_neg hc] at h
      simp at h
  | West =>
    simp only [Grid.is_in_bounds] at h
    by_cases hc : c.1 + 1 ≤ g.extents.1
    · rw [if_pos hc] at h
      simp only [Option.some.injEq] at h
      subst h
      exact ⟨hc, hy⟩
    · rw [if_neg hc] at h
      simp at h
  | South =>
    simp only [Grid.is_in_bounds] at h
    cases hc : c.2 with
    | zero =>
      simp only [hc] at h
      exact Option.noConfusion h
    | succ y =>
      simp only [hc, Option.some.injEq] at h
      subst h
      exact ⟨hx, by show y ≤ g.extents.2; omega⟩
  | East =>
    simp only [Grid.is_in_bounds] at h
    cases hc : c.1 with
    | zero =>
      simp only [hc] at h
      exact Option.noConfusion h
    | succ x =>
      simp only [hc, Option.some.injEq] at h
      subst h
      exact ⟨by show x ≤ g.extents.1; omega, hy⟩

lemma next_steps_candidate_bounds (g : Grid) (c : Nat × Nat) (o : Origin)
    (hx : c.1 ≤ g.extents.1) (hy : c.2 ≤ g.extents.2)
    (pr : Option ((Nat × Nat) × Origin) × Option ((Nat × Nat) × Origin))
    (h : g.next_steps c o = some pr) :
    (∀ st, pr.1 = some st → inBoundsState g st) ∧
      (∀ st, pr.2 = some st → inBoundsState g st) := by
  cases ht : g.grid c with
  | none => simp [Grid.next_steps, ht] at h
  | some t =>
    simp only [Grid.next_steps, ht, Option.some.injEq] at h
    subst h
    cases t <;> cases o <;>
      refine ⟨fun st hst => ?_, fun st hst => ?_⟩ <;>
      (dsimp only at hst
       first
        | exact is_in_bounds_inBoundsState g c _ hx hy st hst
        | exact Option.noConfusion hst)

lemma mem_allStates (g : Grid) (st : (Nat × Nat) × Origin)
    (h : inBoundsState g st) : st ∈ allStates g := by
  obtain ⟨⟨x, y⟩, o⟩ := st
  obtain ⟨hx, hy⟩ : x ≤ g.extents.1 ∧ y ≤ g.extents.2 := h
  apply List.mem_flatMap.mpr
  refine ⟨x, List.mem_range.mpr (by omega), ?_⟩
  apply List.mem_flatMap.mpr
  refine ⟨y, List.mem_range.mpr (by omega), ?_⟩
  cases o <;> simp

lemma length_flatMap_const {α β : Type} (f : α → List β) (c : Nat)
    (h : ∀ a, (f a).length = c) :
    ∀ l : List α, (l.flatMap f).length = l.length * c := by
  intro l
  induction l with
  | nil => simp
  | cons a l ih => simp [ih, h, Nat.succ_mul]; omega

lemma length_allStates (g : Grid) :
    (allStates g).length = (g.extents.1 + 1) * ((g.extents.2 + 1) * 4) := by
  have hinner : ∀ x : Nat, ((List.range (g.extents.2 + 1)).flatMap (fun y =>
      ([((x, y), Origin.North), ((x, y), Origin.East),
        ((x, y), Origin.South), ((x, y), Origin.West)] :
        List ((Nat × Nat) × Origin)))).length = (g.extents.2 + 1) * 4 := by
    intro x
    rw [length_flatMap_const (fun y : Nat =>
      ([((x, y), Origin.North), ((x, y), Origin.East),
        ((x, y), Origin.South), ((x, y), Origin.West)] :
        List ((Nat × Nat) × Origin))) 4 (fun y => rfl)]
    simp
  rw [allStates, length_flatMap_const _ _ hinner]
  simp

lemma pushState_inv (g : Grid) (m : Option ((Nat × Nat) × Origin))
    (mv sn : List ((Nat × Nat) × Origin))
    (hm : ∀ st, m = some st → inBoundsState g st)
    (h1 : sn.Nodup) (h2 : ∀ st ∈ sn, inBoundsState g st)
    (h3 : ∀ st ∈ mv, inBoundsState g st) :
    (pushState m mv sn).2.Nodup ∧
      (∀ st ∈ (pushState m mv sn).2, inBoundsState g st) ∧
      (∀ st ∈ (pushState m mv sn).1, inBoundsState g st) ∧
      (pushState m mv sn).1.length +
          ((allStates g).length - (pushState m mv sn).2.length) =
        mv.length + ((allStates g).length - sn.length) := by
  cases m with
  | none => simp only [pushState]; exact ⟨h1, h2, h3, trivial⟩
  | some st =>
    by_cases hst : st ∈ sn
    · simp only [pushState, if_pos hst]
      exact ⟨h1, h2, h3, trivial⟩
    · simp only [pushState, if_neg hst]
      have hstb : inBoundsState g st := hm st rfl
      have hnodup : (st :: sn).Nodup := by simp [List.nodup_cons, hst, h1]
      have hsub : (st :: sn) ⊆ allStates g := by
        intro a ha
        rcases List.mem_cons.mp ha with h | h
        · subst h; exact mem_allStates g a hstb
        · exact mem_allStates g a (h2 a h)
      have hlen : (st :: sn).length ≤ (allStates g).length :=
        (hnodup.subperm hsub).length_le
      refine ⟨hnodup, ?_, ?_, ?_⟩
      · intro a ha
        rcases List.mem_cons.mp ha with h | h
        · subst h; exact hstb
        · exact h2 a h
      · intro a ha
        rcases List.mem_cons.mp ha with h | h
        · subst h; exact hstb
        · exact h3 a h
      · simp only [List.length_cons] at hlen ⊢
        omega

/-- The beam-search loop halts once the fuel exceeds the measure
`|moves| + (|state space| - |seen|)`, which drops by one every iteration. -/
lemma beamLoop_total (g : Grid)
    (hpop : ∀ x y, x ≤ g.extents.1 → y ≤ g.extents.2 → (g.grid (x, y)).isSome) :
    ∀ (fuel : Nat) (moves seen : List ((Nat × Nat) × Origin))
      (energized : List (Nat × Nat)),
      seen.Nodup →
      (∀ st ∈ seen, inBoundsState g st) →
      (∀ st ∈ moves, inBoundsState g st) →
      moves.length + ((allStates g).length - seen.length) < fuel →
      ∃ r, beamLoop g fuel moves seen energized = some r := by
  intro fuel
  induction fuel with
  | zero => intro moves seen energized _ _ _ hlt; omega
  | succ fuel ih =>
    intro moves seen energized hnd hsb hmb hlt
    cases moves with
    | nil => exact ⟨energized, rfl⟩
    | cons m rest =>
      obtain ⟨current, origin⟩ := m
      have hcb : inBoundsState g (current, origin) := hmb _ (List.mem_cons_self _ _)
      have hsome : (g.grid current).isSome := by
        have := hpop current.1 current.2 hcb.1 hcb.2
        simpa using this
      have hns : ∃ pr, g.next_steps current origin = some pr := by
        obtain ⟨t, ht⟩ := Option.isSome_iff_exists.mp hsome
        simp [Grid.next_steps, ht]
      obtain ⟨pr, hpr⟩ := hns
      obtain ⟨hm1, hm2⟩ :=
        next_steps_candidate_bounds g current origin hcb.1 hcb.2 pr hpr
      obtain ⟨m1, m2⟩ := pr
      obtain ⟨q1nd, q1sb, q1mb, q1len⟩ :=
        pushState_inv g m1 rest seen hm1 hnd hsb
          (fun st hst => hmb st (List.mem_cons_of_mem _ hst))
      obtain ⟨q2nd, q2sb, q2mb, q2len⟩ :=
        pushState_inv g m2 (pushState m1 rest seen).1 (pushState m1 rest seen).2
          hm2 q1nd q1sb q1mb
      obtain ⟨r, hr⟩ := ih
        (pushState m2 (pushState m1 rest seen).1 (pushState m1 rest seen).2).1
        (pushState m2 (pushState m1 rest seen).1 (pushState m1 rest seen).2).2
        (insertUnique current energized) q2nd q2sb q2mb (by
          rw [q2len, q1len]
          simp only [List.length_cons] at hlt
          omega)
      refine ⟨r, ?_⟩
      simp only [beamLoop, hpr]
      exact hr

/-! ## Claim theorems -/

/-- C1: `solve_part(input, total_cycles)` — cycle detection via a seen-state
map, `cycle_length = i - prev_i`, fast-forward by
`(total_cycles - cycle_start) % cycle_length` — returns the same load as
naively running all `total_cycles` spin cycles with no cycle detection; and
when no field value repeats within `total_cycles` iterations (second
conjunct), the loop performs all the cycles and leaves
`cycle_start = cycle_length = 0`, so the fast-forward step is skipped. -/
theorem solve_part_matches_naive_spin :
    (∀ (input : List Char) (cycles : Nat),
      solve_part input cycles = (parse input).map (fun f => naive_solve f cycles)) ∧
    (∀ (field : List (List PositionState)) (cycles : Nat),
      (∀ i j, i < j → j < cycles → runCycles field i ≠ runCycles field j) →
      detectLoop field [] 0 cycles = (runCycles field cycles, 0, 0)) := by
  constructor
  · intro input cycles
    unfold solve_part
    cases parse input with
    | none => rfl
    | some f => simp [solveField_eq_naive]
  · intro field cycles hdist
    have hbase : ∀ g p,
        lookupField g ([] : List (List (List PositionState) × Nat)) = some p →
          p < 0 ∧ runCycles field p = g := by
      intro g p hgp
      simp [lookupField] at hgp
    rcases detectLoop_spec field cycles 0 [] hbase with h | ⟨i0, p, _, h2, h3, h4, _⟩
    · rw [Nat.zero_add] at h
      exact h
    · exact absurd h4 (hdist p i0 h3 (by omega))

/-- Witness for C1: a run where no repeat can occur within the budget. -/
theorem solve_part_matches_naive_spin_witness :
    detectLoop [[PositionState.RoundRock]] [] 0 1 =
      (runCycles [[PositionState.RoundRock]] 1, 0, 0) :=
  solve_part_matches_naive_spin.2 [[PositionState.RoundRock]] 1
    (by intro i j hij hj; omega)

/-- C2 counterexample: on the non-empty column `[RoundRock, Empty]`,
`slide_rocks` moves the rock to index 1 (the high-index end), not toward
index 0 as the claim states: the claimed toward-index-0 result `settleLow`
differs from what the code computes. -/
theorem slide_rocks_direction_counterexample :
    slide_rocks [PositionState.RoundRock, PositionState.Empty] =
        [PositionState.Empty, PositionState.RoundRock] ∧
      settleLow [PositionState.RoundRock, PositionState.Empty] =
        [PositionState.RoundRock, PositionState.Empty] ∧
      slide_rocks [PositionState.RoundRock, PositionState.Empty] ≠
        settleLow [PositionState.RoundRock, PositionState.Empty] := by
  decide

/-- C2 (amended): for every non-empty column, `slide_rocks` returns the
column in which every round rock has been slid as far toward the
*high-index* end as geometry allows, with cube rocks acting as barriers
(`settle`: per cube-delimited segment, empties at the low indices, round
rocks piled at the high indices). -/
theorem slide_rocks_settles_high (c : List PositionState) (h : c ≠ []) :
    slide_rocks c = settle c :=
  slide_rocks_eq_settle c

/-- Witness for C2 (amended). -/
theorem slide_rocks_settles_high_witness :
    slide_rocks [PositionState.RoundRock, PositionState.Empty] =
      settle [PositionState.RoundRock, PositionState.Empty] :=
  slide_rocks_settles_high _ (by decide)

/-- C3: on the 10-cell column with a round rock at index 0 and a cube rock
at index 5, the load is 1 before tilting; after one `slide_rocks` the round
rock sits at index 4 and the load is 5. -/
theorem load_example_before_after :
    calculate_load
        [PositionState.RoundRock, PositionState.Empty, PositionState.Empty,
         PositionState.Empty, PositionState.Empty, PositionState.CubeRock,
         PositionState.Empty, PositionState.Empty, PositionState.Empty,
         PositionState.Empty] = 1 ∧
      slide_rocks
        [PositionState.RoundRock, PositionState.Empty, PositionState.Empty,
         PositionState.Empty, PositionState.Empty, PositionState.CubeRock,
         PositionState.Empty, PositionState.Empty, PositionState.Empty,
         PositionState.Empty] =
        [PositionState.Empty, PositionState.Empty, PositionState.Empty,
         PositionState.Empty, PositionState.RoundRock, PositionState.CubeRock,
         PositionState.Empty, PositionState.Empty, PositionState.Empty,
         PositionState.Empty] ∧
      (slide_rocks
        [PositionState.RoundRock, PositionState.Empty, PositionState.Empty,
         PositionState.Empty, PositionState.Empty, PositionState.CubeRock,
         PositionState.Empty, PositionState.Empty, PositionState.Empty,
         PositionState.Empty]).getD 4 PositionState.Empty =
        PositionState.RoundRock ∧
      calculate_load
        (slide_rocks
          [PositionState.RoundRock, PositionState.Empty, PositionState.Empty,
           PositionState.Empty, PositionState.Empty, PositionState.CubeRock,
           PositionState.Empty, PositionState.Empty, PositionState.Empty,
           PositionState.Empty]) = 5 := by
  decide

/-- C4: on every populated coordinate, `next_steps` yields exactly the
candidates of the §4.2 redirection table, each one-step move discarded when
it leaves `[0, extents.0] × [0, extents.1]` (the spec-side table is
`specSuccessors`/`specMove`/`specNext`). -/
theorem next_steps_follows_redirection_table (g : Grid) (cur : Nat × Nat)
    (o : Origin) (t : Tile) (h : g.grid cur = some t) :
    g.next_steps cur o = some (specNext g.extents cur t o) := by
  cases t <;> cases o <;>
    simp [Grid.next_steps, h, specNext, specSuccessors, is_in_bounds_eq_specMove]

/-- Witness for C4. -/
theorem next_steps_follows_redirection_table_witness :
    gridW4.next_steps (1, 1) Origin.North =
      some (specNext (3, 3) (1, 1) Tile.Empty Origin.North) :=
  next_steps_follows_redirection_table gridW4 (1, 1) Origin.North Tile.Empty rfl

/-- C5: on a grid populated at every coordinate of
`[0, extents.0] × [0, extents.1]`, the beam search terminates within the
state-space bound `(extents.0 + 1) * (extents.1 + 1) * 4`: with that much
fuel plus one, the loop finishes (each state is pushed at most once since a
state is pushed only when absent from the seen set and inserted at push
time). -/
theorem get_energized_tiles_terminates (g : Grid)
    (hpop : ∀ x y, x ≤ g.extents.1 → y ≤ g.extents.2 → (g.grid (x, y)).isSome) :
    ∃ r, get_energized_tiles g
        ((g.extents.1 + 1) * (g.extents.2 + 1) * 4 + 1) = some r := by
  have hN : (allStates g).length = (g.extents.1 + 1) * (g.extents.2 + 1) * 4 := by
    rw [length_allStates, Nat.mul_assoc]
  have h1 : 1 ≤ (allStates g).length := by
    rw [hN]
    have : 0 < (g.extents.1 + 1) * (g.extents.2 + 1) * 4 := by positivity
    omega
  unfold get_energized_tiles
  apply beamLoop_total g hpop
  · simp
  · intro st hst
    simp only [List.mem_singleton] at hst
    subst hst
    exact ⟨Nat.zero_le _, Nat.zero_le _⟩
  · intro st hst
    simp only [List.mem_singleton] at hst
    subst hst
    exact ⟨Nat.zero_le _, Nat.zero_le _⟩
  · simp only [List.length_singleton]
    omega

/-- Witness for C5. -/
theorem get_energized_tiles_terminates_witness :
    ∃ r, get_energized_tiles gridW5 ((0 + 1) * (0 + 1) * 4 + 1) = some r :=
  get_energized_tiles_terminates gridW5 (fun x y hx hy => rfl)

/-- C6 counterexample: the parse error does *not* carry the offending
character — two distinct invalid characters produce the very same error
value (the fixed message `"Failed to parse Tile from char"`). -/
theorem try_from_error_counterexample :
    Tile.try_from 'a' = Tile.try_from 'b' ∧ ('a' : Char) ≠ 'b' :=
  ⟨rfl, by decide⟩

/-- C6 (amended): tile parsing maps `.` `/` `\` `-` `|` to their tiles and
every other character to a fatal parse error whose value is the fixed
message `"Failed to parse Tile from char"` (not carrying the character). -/
theorem try_from_fixed_error_table (c : Char) :
    Tile.try_from '.' = Except.ok Tile.Empty ∧
      Tile.try_from '/' = Except.ok Tile.MirrorForward ∧
      Tile.try_from '\\' = Except.ok Tile.MirrorBackward ∧
      Tile.try_from '-' = Except.ok Tile.SplitterHorizontal ∧
      Tile.try_from '|' = Except.ok Tile.SplitterVertical ∧
      (c ≠ '.' → c ≠ '/' → c ≠ '\\' → c ≠ '-' → c ≠ '|' →
        Tile.try_from c = Except.error "Failed to parse Tile from char") := by
  refine ⟨rfl, rfl, rfl, rfl, rfl, ?_⟩
  intro h1 h2 h3 h4 h5
  simp [Tile.try_from, h1, h2, h3, h4, h5]

/-- Witness for C6 (amended). -/
theorem try_from_fixed_error_table_witness :
    Tile.try_from 'x' = Except.error "Failed to parse Tile from char" :=
  (try_from_fixed_error_table 'x').2.2.2.2.2 (by decide) (by decide) (by decide)
    (by decide) (by decide)

/-- C7: tilting is idempotent — `slide_rocks (slide_rocks c) = slide_rocks c`
for every non-empty column. -/
theorem slide_rocks_idempotent (c : List PositionState) (h : c ≠ []) :
    slide_rocks (slide_rocks c) = slide_rocks c := by
  rw [slide_rocks_eq_settle, slide_rocks_eq_settle, settle_settle]

/-- Witness for C7. -/
theorem slide_rocks_idempotent_witness :
    slide_rocks (slide_rocks [PositionState.RoundRock, PositionState.Empty]) =
      slide_rocks [PositionState.RoundRock, PositionState.Empty] :=
  slide_rocks_idempotent _ (by decide)

/-- C8: the checked model of `slide_rocks` panics exactly on the empty
column; on every non-empty column it completes with no out-of-bounds access
and no `usize` underflow and agrees with the total model. -/
theorem slide_rocks_panics_iff_empty :
    slideRocksChecked [] = none ∧
      ∀ c : List PositionState, c ≠ [] →
        slideRocksChecked c = some (slide_rocks c) := by
  constructor
  · rfl
  · intro c hc
    unfold slideRocksChecked slide_rocks
    rw [if_neg (by simpa using hc)]
    exact slideLoopChecked_eq c.length c none (Nat.le_refl _) (fun s hs => by cases hs)

/-- Witness for C8. -/
theorem slide_rocks_panics_iff_empty_witness :
    slideRocksChecked [PositionState.RoundRock, PositionState.Empty] =
      some (slide_rocks [PositionState.RoundRock, PositionState.Empty]) :=
  slide_rocks_panics_iff_empty.2 _ (by decide)

/-- C9: the rock-field parse fails precisely when the input contains no
whitespace character — whitespace in the sense of Rust's
`char::is_whitespace`, i.e. the Unicode `White_Space` property modelled by
`char_is_whitespace` (the separator used for row-length detection); any
input with such a character parses successfully, all characters other than
`O` `.` `#` being silently dropped by the filter. -/
theorem parse_fails_iff_no_whitespace (input : List Char) :
    parse input = none ↔ ∀ c ∈ input, char_is_whitespace c = false := by
  rw [← find_whitespace_eq_none]
  constructor
  · intro h
    by_contra hne
    cases hf : find_whitespace input with
    | none => exact hne hf
    | some n => simp [parse, hf] at h
  · intro h
    simp [parse, h]

/-- C10: on every non-empty column, `slide_rocks` preserves the length,
keeps every cube rock at its exact index, and preserves the number of round
rocks and of empty cells. -/
theorem slide_rocks_preserves_cells (c : List PositionState) (h : c ≠ []) :
    (slide_rocks c).length = c.length ∧
      (∀ i, (slide_rocks c).getD i PositionState.Empty = PositionState.CubeRock ↔
        c.getD i PositionState.Empty = PositionState.CubeRock) ∧
      countState PositionState.RoundRock (slide_rocks c) =
        countState PositionState.RoundRock c ∧
      countState PositionState.Empty (slide_rocks c) =
        countState PositionState.Empty c := by
  rw [slide_rocks_eq_settle]
  exact ⟨settle_length c, settle_cube_getD c, settle_countR c, settle_countE c⟩

/-- Witness for C10. -/
theorem slide_rocks_preserves_cells_witness :
    (slide_rocks [PositionState.RoundRock, PositionState.CubeRock]).length =
        ([PositionState.RoundRock, PositionState.CubeRock] :
          List PositionState).length ∧
      (∀ i, (slide_rocks [PositionState.RoundRock,
            PositionState.CubeRock]).getD i PositionState.Empty =
          PositionState.CubeRock ↔
        ([PositionState.RoundRock, PositionState.CubeRock] :
            List PositionState).getD i PositionState.Empty =
          PositionState.CubeRock) ∧
      countState PositionState.RoundRock
          (slide_rocks [PositionState.RoundRock, PositionState.CubeRock]) =
        countState PositionState.RoundRock
          [PositionState.RoundRock, PositionState.CubeRock] ∧
      countState PositionState.Empty
          (slide_rocks [PositionState.RoundRock, PositionState.CubeRock]) =
        countState PositionState.Empty
          [PositionState.RoundRock, PositionState.CubeRock] :=
  slide_rocks_preserves_cells _ (by decide)
